import Mathlib

/-!
Verification of the volume-reduction filtering and deduplication engine
(`app/volume_reduction_pipeline.py`).

Modelling conventions, stated once here:

* Python `str` values are modelled as `List Char`.  All character classes
  (`\w`, `\s`, `[A-Za-z]`, `str.lower`, `str.strip`) are modelled with their
  ASCII semantics; the repository's patterns and stop words are pure ASCII.
* The MD5 digest used by `create_content_signature` / `create_fuzzy_signature`
  is modelled as the identity on its preimage string: the code only ever
  compares digests for equality, and the spec (§4.2) allows any deterministic
  collision-resistant digest, so digest equality is modelled as preimage
  equality.
* `datetime` values are modelled as integer timestamps (seconds); subtraction
  of two datetimes yields the signed number of seconds, and Python's
  `timedelta.days` is floor division by 86400 (`Int.fdiv`), which matches
  Python's floor semantics for negative deltas as well.  The time-zone
  normalisation in `is_duplicate` (naive datetimes are interpreted as UTC)
  is captured by placing every timestamp on this single integer timeline.
* The mutable `VolumeReducer` instance state (`recent_hashes`,
  `last_cache_cleanup`) is threaded explicitly as a `ReducerState` value;
  `datetime.now()` is an explicit `now : Int` argument.
* `SequenceMatcher(None, a, b).ratio()` from `difflib` is modelled exactly for
  the junk-free case: `isjunk` is `None`, and the `autojunk` heuristic (which
  only activates when `len(b) >= 200` and a character occurs in more than
  `len(b)//100 + 1` positions of `b`) is not modelled, so the modelled ratio
  agrees with `difflib` whenever `b` is shorter than 200 characters, which
  covers every comparison exercised below.  The ratio is an exact rational;
  the float constants `0.8` and `0.3` of the source are modelled as the
  rationals `4/5` and `3/10`.
-/

/-! ## Character classes (ASCII semantics of `\s`, `\w`, `[A-Za-z]`, `str.lower`) -/

/-- Python `\s` (ASCII): space (32), tab (9), newline (10), carriage return
(13), vertical tab (11), form feed (12), stated on code points. -/
def isPySpace (c : Char) : Bool :=
  decide (c.toNat = 32 ∨ c.toNat = 9 ∨ c.toNat = 10 ∨ c.toNat = 13 ∨
          c.toNat = 11 ∨ c.toNat = 12)

/-- Python `\w` (ASCII): letters (`a`-`z` 97-122, `A`-`Z` 65-90), digits
(`0`-`9` 48-57), underscore (95). -/
def isWordChar (c : Char) : Bool :=
  decide ((97 ≤ c.toNat ∧ c.toNat ≤ 122) ∨ (65 ≤ c.toNat ∧ c.toNat ≤ 90) ∨
          (48 ≤ c.toNat ∧ c.toNat ≤ 57) ∨ c.toNat = 95)

/-- `[A-Za-z]`. -/
def isAsciiLetter (c : Char) : Bool :=
  decide ((97 ≤ c.toNat ∧ c.toNat ≤ 122) ∨ (65 ≤ c.toNat ∧ c.toNat ≤ 90))

/-- `[A-Z]`. -/
def isUpperAscii (c : Char) : Bool := decide (65 ≤ c.toNat ∧ c.toNat ≤ 90)

/-- Python `str.lower` restricted to ASCII: add 32 to the code point of an
uppercase letter. -/
def pyToLower (c : Char) : Char :=
  if 65 ≤ c.toNat ∧ c.toNat ≤ 90 then Char.ofNat (c.toNat + 32) else c

/-! ## The text normalizer (`VolumeReducer._normalize_text`)

The source performs, in order:
1. `re.sub(r'\s+', ' ', text)` — collapse every whitespace run to one space;
2. `re.sub(r'[^\w\s]', '', text)` — delete every non-word, non-space char;
3. `re.sub(r'\b(the|a|an|and|or|but|in|on|at|to|for|of|with|by)\b', '', text.lower())`
   — lowercase, then delete every maximal word-character run equal to a stop
   word (the `\b` anchors make a match coincide with a whole maximal run);
4. `str.strip()`.
-/

/-- Replace an individual whitespace character by `' '` (step 1, part a). -/
def spacify (c : Char) : Char := if isPySpace c then ' ' else c

/-- Collapse runs of `' '` to a single `' '` (step 1, part b: after `spacify`,
every whitespace run is a run of `' '`). -/
def squeeze : List Char → List Char
  | [] => []
  | [c] => [c]
  | c :: d :: cs =>
    if c = ' ' ∧ d = ' ' then squeeze (d :: cs) else c :: squeeze (d :: cs)

/-- Characters kept by step 2 (`[^\w\s]` is deleted). -/
def keepWs (c : Char) : Bool := isWordChar c || isPySpace c

/-- The stop-word list of the source regex. -/
def stopwords : List (List Char) :=
  [("the").data, ("a").data, ("an").data, ("and").data, ("or").data,
   ("but").data, ("in").data, ("on").data, ("at").data, ("to").data,
   ("for").data, ("of").data, ("with").data, ("by").data]

def isStopword (w : List Char) : Bool := stopwords.contains w

/-- Emission of a pending (already reversed back) word token: a stop word is
deleted, any other token is kept. -/
def emitTok (tok : List Char) : List Char := if isStopword tok then [] else tok

/-- Step 3's deletion of `\b`-delimited stop words: scan the string keeping an
accumulator of the current (reversed) maximal word-character run; on leaving a
run, emit it unless it is a stop word.  Non-word characters are kept as-is. -/
def remStopAux : List Char → List Char → List Char
  | tok, [] => emitTok tok.reverse
  | tok, c :: cs =>
    if isWordChar c then remStopAux (c :: tok) cs
    else emitTok tok.reverse ++ c :: remStopAux [] cs

def removeStop (l : List Char) : List Char := remStopAux [] l

/-- Python `str.strip()` (ASCII whitespace). -/
def pyStrip (l : List Char) : List Char :=
  ((l.dropWhile isPySpace).reverse.dropWhile isPySpace).reverse

/-- `VolumeReducer._normalize_text`. -/
def normalizeText (l : List Char) : List Char :=
  if l.isEmpty then []
  else pyStrip (removeStop (((squeeze (l.map spacify)).filter keepWs).map pyToLower))

/-! ## Maximal word-character runs

`tokensAux` mirrors the accumulator structure of `remStopAux` and computes the
list of maximal `\w`-runs of a string; it is the specification device for the
stop-word step and for the fuzzy-signature keyword extraction. -/

def tokensAux : List Char → List Char → List (List Char)
  | tok, [] => if tok = [] then [] else [tok.reverse]
  | tok, c :: cs =>
    if isWordChar c then tokensAux (c :: tok) cs
    else (if tok = [] then [] else [tok.reverse]) ++ tokensAux [] cs

def wordTokens (l : List Char) : List (List Char) := tokensAux [] l


/-! ## Regex search helpers

Each pattern of the source is hand-compiled to an executable search over
`List Char`.  `re.search(p, text, re.IGNORECASE)` for a literal ASCII pattern
is containment of the lowercase pattern in the lowercased text; the wildcard
`.` of the source patterns matches every character except `'\n'` (no
`re.DOTALL` is used); `^` and `$` are the whole-string anchors (no
`re.MULTILINE`), with `$` also matching just before a trailing newline. -/

/-- Does `f` hold of some suffix of the string? (`re.search` position scan.) -/
def scanAll (f : List Char → Bool) : List Char → Bool
  | [] => f []
  | c :: cs => f (c :: cs) || scanAll f cs

/-- Does `f` hold of some suffix reachable without crossing a `'\n'`?
(Implements a `.*` gap of the source patterns.) -/
def scanNoNl (f : List Char → Bool) : List Char → Bool
  | [] => f []
  | c :: cs => f (c :: cs) || (if c = '\n' then false else scanNoNl f cs)

/-- Literal substring search. -/
def litFound (pat : List Char) (l : List Char) : Bool :=
  scanAll (fun s => pat.isPrefixOf s) l

/-- `AGENCY\s*-` (e.g. `PTI\s*-`): the agency name, then whitespace, then a
dash.  `\s*` is forced to consume the whole whitespace run because `'-'` is
not whitespace. -/
def agencyDash (ag : List Char) (l : List Char) : Bool :=
  scanAll (fun s =>
    ag.isPrefixOf s && ((s.drop ag.length).dropWhile isPySpace).head? = some '-') l

/-- `P1.*P2` on one line. -/
def seqNoNl (p1 p2 : List Char) (l : List Char) : Bool :=
  scanAll (fun s =>
    p1.isPrefixOf s && scanNoNl (fun r => p2.isPrefixOf r) (s.drop p1.length)) l

/-- `Source:.*AP\s` (lowercased): `source:` then, on the same line, `ap`
followed by one whitespace character. -/
def sourceApPat (lw : List Char) : Bool :=
  scanAll (fun s => ("source:").data.isPrefixOf s &&
    scanNoNl (fun r => ("ap").data.isPrefixOf r &&
      (match (r.drop 2).head? with
       | some d => isPySpace d
       | none => false)) (s.drop 7)) lw

/-- `Contact:.*@.*\.` (lowercased): `contact:` then `@` then `.`, all on one
line. -/
def contactPat (lw : List Char) : Bool :=
  scanAll (fun s => ("contact:").data.isPrefixOf s &&
    scanNoNl (fun r => r.head? = some '@' &&
      scanNoNl (fun q => q.head? = some '.') (r.drop 1)) (s.drop 8)) lw

/-- `[a-zA-Z\s]*:` — a run of letters/whitespace ending at a colon. -/
def classColon : List Char → Bool
  | [] => false
  | c :: cs =>
    if c = ':' then true
    else if isAsciiLetter c || isPySpace c then classColon cs
    else false

/-- `About [A-Z][a-zA-Z\s]*:` under `re.IGNORECASE` (so `[A-Z]` matches any
letter), applied to the lowercased text. -/
def aboutPat (lw : List Char) : Bool :=
  scanAll (fun s => ("about ").data.isPrefixOf s &&
    (match s.drop 6 with
     | [] => false
     | d :: rest => isAsciiLetter d && classColon rest)) lw

/-- `^Breaking:.*\.$` on the lowercased whole text: starts with `breaking:`,
ends with `.` (allowing one trailing newline), no interior newline. -/
def breakingPat (lw : List Char) : Bool :=
  ("breaking:").data.isPrefixOf lw &&
  (let r := lw.drop 9
   let r2 := if r.getLast? = some '\n' then r.dropLast else r
   r2.getLast? = some '.' && !(r2.dropLast.contains '\n'))

/-- `^\w+\s+\w+\s*-\s*$`: the whole text is two word runs separated by
whitespace, then a dash and trailing whitespace.  Character classes are
disjoint, so the greedy parse is forced. -/
def locSourcePat (lw : List Char) : Bool :=
  let w1 := lw.takeWhile isWordChar
  let r1 := lw.dropWhile isWordChar
  let s1 := r1.takeWhile isPySpace
  let r2 := r1.dropWhile isPySpace
  let w2 := r2.takeWhile isWordChar
  let r3 := r2.dropWhile isWordChar
  let s2r := r3.dropWhile isPySpace
  !w1.isEmpty && !s1.isEmpty && !w2.isEmpty &&
  (match s2r with
   | '-' :: rest => rest.all isPySpace
   | _ => false)

/-! ### Counting scans (`re.findall`, case sensitive, non-overlapping) -/

/-- Length of a `(By|Reporter|Correspondent):` match at the given suffix. -/
def bylineMatchLen (s : List Char) : Option Nat :=
  if ("By:").data.isPrefixOf s then some 3
  else if ("Reporter:").data.isPrefixOf s then some 9
  else if ("Correspondent:").data.isPrefixOf s then some 14
  else none

/-- Non-overlapping count of `\b(By|Reporter|Correspondent):` matches, scanned
left to right; `prevW` records whether the previous character was a word
character (for the `\b` anchor).  After a match the scan resumes past it; the
consumed text ends in `':'`, a non-word character. -/
def countByAux : Nat → Bool → List Char → Nat
  | 0, _, _ => 0
  | _ + 1, _, [] => 0
  | fuel + 1, prevW, c :: cs =>
    if prevW then countByAux fuel (isWordChar c) cs
    else
      match bylineMatchLen (c :: cs) with
      | some k => 1 + countByAux fuel false ((c :: cs).drop k)
      | none => countByAux fuel (isWordChar c) cs

def countBylines (l : List Char) : Nat := countByAux (l.length + 1) false l

/-- One of `Inc|Corp|Ltd|LLC|Co` followed by a `\b`. -/
def suffixBoundary (w : List Char) (r : List Char) : Bool :=
  w.isPrefixOf r &&
  (match (r.drop w.length).head? with
   | none => true
   | some d => !(isWordChar d))

def coSuffixLen (r : List Char) : Option Nat :=
  if suffixBoundary ("Inc").data r then some 3
  else if suffixBoundary ("Corp").data r then some 4
  else if suffixBoundary ("Ltd").data r then some 3
  else if suffixBoundary ("LLC").data r then some 3
  else if suffixBoundary ("Co").data r then some 2
  else none

/-- Length of a `\b[A-Z][a-zA-Z]*\s+(?:Inc|Corp|Ltd|LLC|Co)\b` match starting
at this suffix (boundary before the start is checked by the caller).  The
greedy `[a-zA-Z]*` must consume the entire letter run (the next atom `\s+`
rules out every shorter split), and `\s+` the entire whitespace run. -/
def companyMatchLen (s : List Char) : Option Nat :=
  let letters := s.takeWhile isAsciiLetter
  match letters.head? with
  | none => none
  | some h0 =>
    if isUpperAscii h0 then
      let r := s.drop letters.length
      let sp := r.takeWhile isPySpace
      if sp.isEmpty then none
      else
        match coSuffixLen (r.drop sp.length) with
        | some k => some (letters.length + sp.length + k)
        | none => none
    else none

/-- Non-overlapping count of company-suffix mentions.  After a match the scan
resumes past it; the consumed text ends in a letter, a word character. -/
def companyCountAux : Nat → Bool → List Char → Nat
  | 0, _, _ => 0
  | _ + 1, _, [] => 0
  | fuel + 1, prevW, c :: cs =>
    if prevW then companyCountAux fuel (isWordChar c) cs
    else
      match companyMatchLen (c :: cs) with
      | some k => 1 + companyCountAux fuel true ((c :: cs).drop k)
      | none => companyCountAux fuel (isWordChar c) cs

def companyMentions (content : List Char) : Nat :=
  companyCountAux (content.length + 1) false content

/-- Python `str.split()`: split on whitespace runs, dropping empty pieces. -/
def splitWsAux : List Char → List Char → List (List Char)
  | tok, [] => if tok = [] then [] else [tok.reverse]
  | tok, c :: cs =>
    if isPySpace c then
      (if tok = [] then [] else [tok.reverse]) ++ splitWsAux [] cs
    else splitWsAux (c :: tok) cs

def splitWs (l : List Char) : List (List Char) := splitWsAux [] l

/-- Deduplication keeping first occurrences (`set` cardinality / union). -/
def dedupAux {α : Type} [DecidableEq α] (seen : List α) : List α → List α
  | [] => []
  | x :: xs =>
    if x ∈ seen then dedupAux seen xs else x :: dedupAux (x :: seen) xs

/-! ## Pattern classifiers -/

/-- `VolumeReducer.is_wire_service_content`: the wire-service pattern list
(all `re.IGNORECASE`), or more than 2 byline markers (case sensitive). -/
def is_wire_service_content (t c : List Char) : Bool :=
  let full := t ++ ' ' :: c
  let lw := full.map pyToLower
  litFound ("(reuters)").data lw || litFound ("(ap)").data lw ||
  litFound ("(afp)").data lw || litFound ("(bloomberg)").data lw ||
  litFound ("press trust of india").data lw ||
  agencyDash ("pti").data lw || agencyDash ("ani").data lw ||
  agencyDash ("ians").data lw || agencyDash ("uni").data lw ||
  litFound ("(ians)").data lw || litFound ("(pti)").data lw ||
  litFound ("news agencies").data lw || litFound ("wire services").data lw ||
  seqNoNl ("courtesy:").data ("reuters").data lw || sourceApPat lw ||
  decide (2 < countBylines full)

/-- `VolumeReducer.is_pr_content`: the PR pattern list (all `re.IGNORECASE`),
or more than 5 company-suffix mentions in the content (case sensitive). -/
def is_pr_content (t c : List Char) : Bool :=
  let full := t ++ ' ' :: c
  let lw := full.map pyToLower
  litFound ("press release").data lw ||
  litFound ("for immediate release").data lw ||
  litFound ("business wire").data lw || litFound ("pr newswire").data lw ||
  litFound ("prweb").data lw || contactPat lw || aboutPat lw ||
  seqNoNl ("for more information").data ("visit").data lw ||
  litFound ("media contact:").data lw ||
  seqNoNl ("disclaimer:").data ("investment").data lw ||
  litFound ("this is a sponsored").data lw ||
  litFound ("paid advertisement").data lw ||
  decide (5 < companyMentions c)

/-- `VolumeReducer.is_low_value_content`: content shorter than 150 characters
after stripping, or a low-value pattern (all `re.IGNORECASE`), or a unique-word
ratio below 30% (`len(set(words)) < len(words) * 0.3` with `0.3` modelled as
the exact rational `3/10`; the binary float `0.3` differs from it only below
`2 ^ -53` relatively, which no integer word count can discriminate until
astronomically long inputs, and none of the witnesses below is near the
boundary). -/
def is_low_value_content (t c : List Char) : Bool :=
  decide ((pyStrip c).length < 150) ||
  (let lw := (t ++ ' ' :: c).map pyToLower
   ("live updates:").data.isPrefixOf lw || breakingPat lw ||
   litFound ("more details to follow").data lw ||
   litFound ("this is a developing story").data lw ||
   litFound ("story will be updated").data lw || locSourcePat lw ||
   litFound ("no additional details").data lw ||
   litFound ("developing...").data lw) ||
  (let ws := splitWs c
   decide (10 * (dedupAux [] ws).length < 3 * ws.length))

/-- `VolumeReducer._is_filtered_url`. -/
def is_filtered_url (u : List Char) : Bool :=
  let lw := u.map pyToLower
  litFound ("/press-release/").data lw || litFound ("/pr/").data lw ||
  litFound ("/advertisement/").data lw || litFound ("/sponsored/").data lw ||
  litFound ("/jobs/").data lw || litFound ("/careers/").data lw ||
  litFound ("/obituary/").data lw || litFound ("/weather/").data lw ||
  litFound ("/sports-scores/").data lw || litFound ("/stock-prices/").data lw

/-! ## Signatures (`create_content_signature`, `create_fuzzy_signature`) -/

/-- `create_content_signature`: digest of
`normalize(title) + "|" + normalize(content[:1000])` (digest modelled as the
preimage, see the header). -/
def create_content_signature (t c : List Char) : List Char :=
  normalizeText t ++ '|' :: normalizeText (c.take 1000)

/-- Python string `<` (code-point lexicographic). -/
def lexLe : List Char → List Char → Bool
  | [], _ => true
  | _ :: _, [] => false
  | x :: xs, y :: ys => if x = y then lexLe xs ys else decide (x < y)

def insertLex (x : List Char) : List (List Char) → List (List Char)
  | [] => [x]
  | y :: ys => if lexLe x y then x :: y :: ys else y :: insertLex x ys

/-- Insertion sort by `lexLe`; on duplicate-free input this is the list
`sorted(...)` returns in Python. -/
def sortLex : List (List Char) → List (List Char)
  | [] => []
  | x :: xs => insertLex x (sortLex xs)

/-- `re.findall(r'\b[A-Za-z]{4,}\b', text)`: the maximal word-character runs
that consist solely of letters and have length at least 4 (a run containing a
digit or underscore defeats both `\b` anchors). -/
def alphaTokens (l : List Char) : List (List Char) :=
  (wordTokens l).filter (fun w => decide (4 ≤ w.length) && w.all isAsciiLetter)

/-- `create_fuzzy_signature`: the sorted, deduplicated union of the ≥4-letter
tokens of `title.lower()` and `content[:500].lower()`, truncated to 10, joined
with `"|"` and digested (digest modelled as the preimage; the source sorts the
already-sorted list a second time before joining, a no-op). -/
def create_fuzzy_signature (t c : List Char) : List Char :=
  let keys := (sortLex (dedupAux []
    (alphaTokens (t.map pyToLower) ++ alphaTokens ((c.take 500).map pyToLower)))).take 10
  List.intercalate (['|'] : List Char) keys

/-! ## Similarity (`difflib.SequenceMatcher(None, a, b).ratio()`) -/

/-- Length of the longest common prefix. -/
def lcpLen : List Char → List Char → Nat
  | x :: xs, y :: ys => if x = y then lcpLen xs ys + 1 else 0
  | _, _ => 0

/-- Inner loop of `find_longest_match`: fold over candidate `b`-positions
(the accumulator is deconstructed at each step so that evaluation stays in
normal form). -/
def bestJ (a b : List Char) (i : Nat) : List Nat → Nat × Nat × Nat → Nat × Nat × Nat
  | [], best => best
  | j :: js, (bi, bj, bk) =>
    let k := lcpLen (a.drop i) (b.drop j)
    bestJ a b i js (if bk < k then (i, j, k) else (bi, bj, bk))

/-- Outer loop of `find_longest_match`. -/
def bestI (a b : List Char) : List Nat → Nat × Nat × Nat → Nat × Nat × Nat
  | [], best => best
  | i :: is, (bi, bj, bk) => bestI a b is (bestJ a b i (List.range b.length) (bi, bj, bk))

/-- `find_longest_match` over the whole strings (no junk): the longest common
substring, earliest in `a` then in `b` on ties — exactly the block the
`j2len` dynamic program of `difflib` reports, since without junk the two
junk-extension passes are no-ops. -/
def flm (a b : List Char) : Nat × Nat × Nat :=
  bestI a b (List.range a.length) (0, 0, 0)

/-- Total size of all matching blocks (`get_matching_blocks`): recursive
divide and conquer around the longest match, as performed by the queue in
`get_matching_blocks` (the final merge of adjacent blocks leaves the total
unchanged).  Structured with a fuel argument for structural recursion; fuel
`|a| + |b|` suffices since each split strictly shrinks that sum. -/
def matchTotalF : Nat → List Char → List Char → Nat
  | 0, _, _ => 0
  | fuel + 1, a, b =>
    let m := flm a b
    if m.2.2 = 0 then 0
    else
      matchTotalF fuel (a.take m.1) (b.take m.2.1) + m.2.2 +
      matchTotalF fuel (a.drop (m.1 + m.2.2)) (b.drop (m.2.1 + m.2.2))

def matchTotal (a b : List Char) : Nat := matchTotalF (a.length + b.length) a b

/-- `SequenceMatcher.ratio()`: `2*M/T`, and `1.0` when both strings are empty
(`_calculate_ratio` returns `1.0` for `length == 0`). -/
def calculate_similarity (a b : List Char) : ℚ :=
  if a.length + b.length = 0 then 1
  else (2 * matchTotal a b : ℚ) / ((a.length : ℚ) + (b.length : ℚ))

/-- The loop test `similarity >= self.similarity_threshold` with denominators
cleared (`2M/T ≥ 4/5  ↔  4T ≤ 10M` for `T > 0`, and `1 ≥ 4/5` for `T = 0`),
so that it evaluates inside the kernel; `simAtLeast_iff` proves it equal to
the rational-valued test. -/
def simAtLeast (cn other : List Char) : Bool :=
  if cn.length + other.length = 0 then true
  else decide (4 * (cn.length + other.length) ≤ 10 * matchTotal cn other)


/-! ## The duplicate detector and the decision aggregator -/

/-- The mutable fields of the `VolumeReducer` instance: the recent-content
hash cache and the last cache-cleanup time. -/
structure ReducerState where
  recent_hashes : List (List Char)
  last_cache_cleanup : Int
deriving DecidableEq

/-- An `Article` row as read by the detector: `title`, `content` (nullable),
`created_at` (nullable, seconds on the common UTC timeline). -/
structure Article where
  title : List Char
  content : Option (List Char)
  created_at : Option Int
deriving DecidableEq

/-- The age guard of the detector loop: an article is skipped iff it has a
creation time and `(now - created_at).days > 7`; `timedelta.days` is floor
division by 86400. -/
def agePasses (now : Int) (a : Article) : Bool :=
  match a.created_at with
  | none => true
  | some ts => !(decide (7 < (now - ts).fdiv 86400))

/-- `set.add` of a signature (Python set semantics on the modelled list). -/
def insertSig (h : List Char) (l : List (List Char)) : List (List Char) :=
  if h ∈ l then l else h :: l

def similarity_threshold : ℚ := 4 / 5

/-- The fuzzy signature of a window article
(`create_fuzzy_signature(article.title, article.content or "")`). -/
def windowFuzzy (a : Article) : List Char :=
  create_fuzzy_signature a.title (a.content.getD [])

/-- The normalised comparison text of a window article
(`_normalize_text(f"{article.title} {(article.content or '')[:500]}")`). -/
def windowNorm (a : Article) : List Char :=
  normalizeText (a.title ++ ' ' :: (a.content.getD []).take 500)

/-- The window loop of `is_duplicate`: for each article, in order — skip if
too old; report `fuzzy_duplicate` on a fuzzy-signature match; report
`similar_content` on a similarity ratio at or above the threshold. -/
def dupScan (fz cn : List Char) (now : Int) : List Article → Option String
  | [] => none
  | a :: rest =>
    if agePasses now a then
      if windowFuzzy a = fz then
        some "fuzzy_duplicate"
      else if simAtLeast cn (windowNorm a) then
        some "similar_content"
      else dupScan fz cn now rest
    else dupScan fz cn now rest

/-- `VolumeReducer.is_duplicate`: exact-signature cache hit first; then the
window scan; if nothing matched, the exact signature is added to the cache. -/
def is_duplicate (t c : List Char) (existing : List Article) (now : Int)
    (s : ReducerState) : (Bool × Option String) × ReducerState :=
  let h := create_content_signature t c
  if h ∈ s.recent_hashes then ((true, some "exact_duplicate"), s)
  else
    match dupScan (create_fuzzy_signature t c)
        (normalizeText (t ++ ' ' :: c.take 500)) now existing with
    | some r => ((true, some r), s)
    | none => ((false, none), { s with recent_hashes := insertSig h s.recent_hashes })

/-- A one-element reason list gated on a classifier verdict. -/
def optReason (b : Bool) (r : String) : List String := if b then [r] else []

/-- The duplicate-detection step of `should_process_article`: Python's
`if existing_articles:` treats both `None` and `[]` as "skip". -/
def dupReasons (t c : List Char) (ea : Option (List Article)) (now : Int)
    (s : ReducerState) : List String × ReducerState :=
  match ea with
  | none => ([], s)
  | some arts =>
    if arts.isEmpty then ([], s)
    else
      let r := is_duplicate t c arts now s
      (optReason r.1.1 ("duplicate_" ++ r.1.2.getD ""), r.2)

/-- `VolumeReducer.should_process_article`: run the five checks in the fixed
source order, collect the rejection reasons, accept iff none triggered. -/
def should_process_article (t c u : List Char) (ea : Option (List Article))
    (now : Int) (s : ReducerState) : (Bool × List String) × ReducerState :=
  let rs :=
    optReason (is_low_value_content t c) "low_value_content" ++
    optReason (is_wire_service_content t c) "wire_service" ++
    optReason (is_pr_content t c) "pr_content" ++
    (dupReasons t c ea now s).1 ++
    optReason (is_filtered_url u) "filtered_url"
  ((rs.isEmpty, rs), (dupReasons t c ea now s).2)

/-! ## The batch pipeline (`filter_articles_batch`) -/

/-- A parsed webhook article: `title`, `content`, `url` (the dictionary
`.get(key, '')` defaults are absorbed into the field values). -/
structure ArticleData where
  title : List Char
  content : List Char
  url : List Char
deriving DecidableEq

/-- The batch statistics dictionary: the three aggregate counters plus the
per-reason counts (a total map with default 0, as `dict.get(reason, 0)`). -/
structure BatchStats where
  total_input : Nat
  total_filtered : Nat
  processed : Nat
  counts : String → Nat

/-- `VolumeReducer.cleanup_cache`: clear the whole cache when more than the
24-hour TTL has elapsed since the last cleanup. -/
def cleanup_cache (now : Int) (s : ReducerState) : ReducerState :=
  if 86400 < now - s.last_cache_cleanup then ⟨[], now⟩ else s

def bumpAccept (st : BatchStats) : BatchStats :=
  { st with processed := st.processed + 1 }

def bumpCount (f : String → Nat) (r : String) : String → Nat :=
  fun x => if x = r then f x + 1 else f x

def bumpReject (st : BatchStats) (rs : List String) : BatchStats :=
  { st with total_filtered := st.total_filtered + 1,
            counts := rs.foldl bumpCount st.counts }

/-- The per-article loop of `filter_articles_batch`: accepted articles are
appended in input order, rejected ones tally `total_filtered` and each of
their reasons. -/
def batchLoop (recent : List Article) (now : Int) :
    List ArticleData → ReducerState → BatchStats →
    (List ArticleData × BatchStats) × ReducerState
  | [], s, st => (([], st), s)
  | a :: rest, s, st =>
    let r := should_process_article a.title a.content a.url (some recent) now s
    if r.1.1 then
      let q := batchLoop recent now rest r.2 (bumpAccept st)
      ((a :: q.1.1, q.1.2), q.2)
    else
      batchLoop recent now rest r.2 (bumpReject st r.1.2)

def initStats (n : Nat) : BatchStats := ⟨n, 0, 0, fun _ => 0⟩

/-- `filter_articles_batch`: trigger the cache TTL check, then drive the
aggregator over the batch against the recent-article window (the window is
the result of the external Article-Store query; the derived reduction
percentage is only logged and not part of the returned statistics). -/
def filter_articles_batch (articles : List ArticleData) (recent : List Article)
    (now : Int) (s0 : ReducerState) : (List ArticleData × BatchStats) × ReducerState :=
  batchLoop recent now articles (cleanup_cache now s0) (initStats articles.length)


/-- Characters that can survive normalisation: kept by the punctuation filter,
fixed by lowercasing, and equal to `' '` if whitespace at all. -/
def GoodChar (c : Char) : Prop :=
  keepWs c = true ∧ pyToLower c = c ∧ (isPySpace c = true → c = ' ')

/-- The block-bounds invariant carried through the `find_longest_match`
folds. -/
def FlmInv (a b : List Char) (p : Nat × Nat × Nat) : Prop :=
  p.1 + p.2.2 ≤ a.length ∧ p.2.1 + p.2.2 ≤ b.length

/-- Priority of a reason code in the fixed reporting order. -/
def reasonPrio (r : String) : Nat :=
  if r = "low_value_content" then 0
  else if r = "wire_service" then 1
  else if r = "pr_content" then 2
  else if r = "filtered_url" then 4
  else 3

/-! ## Concrete inputs for witnesses and counterexamples -/

/-- A title passing every classifier. -/
def wtTitle : List Char := ("regional irrigation upgrades lift harvest outcomes").data

/-- A body over 150 characters with distinct words and no filtered pattern. -/
def wtContent : List Char :=
  ("scientists reported measurable progress across several rural districts where irrigation upgrades improved harvest yields during recent seasons according independent observers tracking field data").data

def wtUrl : List Char := ("https://example.com/news/item5").data

def wtItem : ArticleData := ⟨wtTitle, wtContent, wtUrl⟩

/-- A window article unrelated to `wtItem` and to `ceTitle` (no shared
letters, tiny similarity). -/
def wtWindowArticle : Article := ⟨("zzzz qqqq").data, some [], none⟩

def ceTitle : List Char := ("alpha beta gamma delta").data

/-- One-letter variation of `ceTitle`: similarity 42/44, different fuzzy
signature. -/
def ceSimilarArticle : Article := ⟨("alpha beta gamma delte").data, some [], none⟩

/-- Same text as `ceTitle`: identical fuzzy signature. -/
def ceFuzzyArticle : Article := ⟨("alpha beta gamma delta").data, some [], none⟩

def c1Article : Article := ⟨("qqqq").data, some [], none⟩


set_option maxRecDepth 100000

/-! ## Character-level lemmas -/

theorem toNat_ofNat_valid {n : Nat} (h : n.isValidChar) : (Char.ofNat n).toNat = n := by
  unfold Char.ofNat
  rw [dif_pos h]
  rfl

theorem toNat_pyToLower (c : Char) :
    (pyToLower c).toNat = if 65 ≤ c.toNat ∧ c.toNat ≤ 90 then c.toNat + 32 else c.toNat := by
  unfold pyToLower
  split
  · next h => exact toNat_ofNat_valid (Or.inl (by omega))
  · rfl

theorem pyToLower_idem (c : Char) : pyToLower (pyToLower c) = pyToLower c := by
  have hd : ¬ (65 ≤ (pyToLower c).toNat ∧ (pyToLower c).toNat ≤ 90) := by
    rw [toNat_pyToLower]
    split <;> omega
  generalize pyToLower c = d at hd ⊢
  unfold pyToLower
  rw [if_neg hd]

theorem isWordChar_pyToLower (c : Char) : isWordChar (pyToLower c) = isWordChar c := by
  simp only [isWordChar, decide_eq_decide, toNat_pyToLower]
  split <;> omega

theorem isPySpace_pyToLower (c : Char) : isPySpace (pyToLower c) = isPySpace c := by
  simp only [isPySpace, decide_eq_decide, toNat_pyToLower]
  split <;> omega

theorem keepWs_pyToLower (c : Char) : keepWs (pyToLower c) = keepWs c := by
  simp [keepWs, isWordChar_pyToLower, isPySpace_pyToLower]

theorem space_not_word {c : Char} (h : isPySpace c = true) : isWordChar c = false := by
  simp only [isPySpace, decide_eq_true_eq] at h
  simp only [isWordChar, decide_eq_false_iff_not]
  omega

theorem word_not_space {c : Char} (h : isWordChar c = true) : isPySpace c = false := by
  cases hs : isPySpace c
  · rfl
  · rw [space_not_word hs] at h; cases h

theorem space_toNat : (' ' : Char).toNat = 32 := rfl

theorem spacify_space_eq {c : Char} (h : isPySpace (spacify c) = true) : spacify c = ' ' := by
  unfold spacify at *
  by_cases hc : isPySpace c = true
  · rw [if_pos hc]
  · rw [if_neg hc] at h ⊢; exact absurd h hc

/-! ## `squeeze` lemmas -/

theorem squeeze_cons_of_ne_space {c : Char} (t : List Char) (h : ¬ c = ' ') :
    squeeze (c :: t) = c :: squeeze t := by
  cases t with
  | nil => rfl
  | cons d ds =>
    rw [squeeze, if_neg]
    rintro ⟨h1, _⟩
    exact h h1

theorem mem_squeeze : ∀ (l : List Char) (x : Char), x ∈ squeeze l → x ∈ l
  | [], x, h => by simpa [squeeze] using h
  | [c], x, h => by simpa [squeeze] using h
  | c :: d :: cs, x, h => by
    rw [squeeze] at h
    split at h
    · exact List.mem_cons_of_mem c (mem_squeeze (d :: cs) x h)
    · rcases List.mem_cons.mp h with h1 | h1
      · exact h1 ▸ List.mem_cons_self x (d :: cs)
      · exact List.mem_cons_of_mem c (mem_squeeze (d :: cs) x h1)

theorem head?_squeeze : ∀ l : List Char, (squeeze l).head? = l.head?
  | [] => rfl
  | [c] => rfl
  | c :: d :: cs => by
    rw [squeeze]
    split
    · next hcd => rw [head?_squeeze (d :: cs)]; simp [hcd.1, hcd.2]
    · rfl

theorem squeeze_ne_nil : ∀ {l : List Char}, l ≠ [] → squeeze l ≠ []
  | [], h => absurd rfl h
  | [c], _ => by simp [squeeze]
  | c :: d :: cs, _ => by
    rw [squeeze]
    split
    · exact squeeze_ne_nil (List.cons_ne_nil d cs)
    · exact List.cons_ne_nil _ _

theorem getLast?_squeeze : ∀ l : List Char, (squeeze l).getLast? = l.getLast?
  | [] => rfl
  | [c] => rfl
  | c :: d :: cs => by
    rw [squeeze]
    split
    · rw [getLast?_squeeze (d :: cs), List.getLast?_cons_cons]
    · have hne : squeeze (d :: cs) ≠ [] := squeeze_ne_nil (List.cons_ne_nil d cs)
      rcases hsq : squeeze (d :: cs) with _ | ⟨e, es⟩
      · exact absurd hsq hne
      · rw [List.getLast?_cons_cons, ← hsq, getLast?_squeeze (d :: cs), List.getLast?_cons_cons]

/-! ## `tokensAux` lemmas -/

theorem tokensAux_cons_word {c : Char} (h : isWordChar c = true) (tok cs : List Char) :
    tokensAux tok (c :: cs) = tokensAux (c :: tok) cs := by
  rw [tokensAux, if_pos h]

theorem tokensAux_cons_nonword {c : Char} (h : isWordChar c = false) (tok cs : List Char) :
    tokensAux tok (c :: cs) =
      (if tok = [] then [] else [tok.reverse]) ++ tokensAux [] cs := by
  rw [tokensAux, if_neg (by simp [h])]

/-- Scanning an all-word-character prefix just shifts it into the
accumulator. -/
theorem tokensAux_append_word :
    ∀ (w : List Char), (∀ c ∈ w, isWordChar c = true) →
      ∀ (tok r : List Char), tokensAux tok (w ++ r) = tokensAux (w.reverse ++ tok) r
  | [], _, tok, r => by simp
  | c :: w', h, tok, r => by
    have hc : isWordChar c = true := h c (List.mem_cons_self c w')
    have hw : ∀ x ∈ w', isWordChar x = true := fun x hx => h x (List.mem_cons_of_mem c hx)
    rw [List.cons_append, tokensAux_cons_word hc,
        tokensAux_append_word w' hw (c :: tok) r, List.reverse_cons, List.append_assoc,
        List.singleton_append]

/-- `squeeze` does not change the maximal word runs: it only shortens space
runs, never to nothing. -/
theorem tokensAux_squeeze : ∀ (l tok : List Char), tokensAux tok (squeeze l) = tokensAux tok l
  | [], _ => rfl
  | [c], _ => rfl
  | c :: d :: cs, tok => by
    rw [squeeze]
    split
    · next hcd =>
      have hc : isWordChar c = false := by
        rw [hcd.1]; decide
      have hd : isWordChar d = false := by
        rw [hcd.2]; decide
      rw [tokensAux_squeeze (d :: cs) tok, tokensAux_cons_nonword hc,
          tokensAux_cons_nonword hd, tokensAux_cons_nonword hd]
      simp
    · cases hc : isWordChar c
      · rw [tokensAux_cons_nonword hc, tokensAux_cons_nonword hc, tokensAux_squeeze (d :: cs) []]
      · rw [tokensAux_cons_word hc, tokensAux_cons_word hc, tokensAux_squeeze (d :: cs) (c :: tok)]

theorem tokensAux_all_space {s : List Char} (hs : ∀ c ∈ s, isPySpace c = true) :
    ∀ tok, tokensAux tok s = if tok = [] then [] else [tok.reverse] := by
  induction s with
  | nil => intro tok; rfl
  | cons c cs ih =>
    intro tok
    have hc : isWordChar c = false := space_not_word (hs c (List.mem_cons_self c cs))
    have hcs : ∀ x ∈ cs, isPySpace x = true := fun x hx => hs x (List.mem_cons_of_mem c hx)
    rw [tokensAux_cons_nonword hc, ih hcs []]
    simp

theorem tokensAux_append_space {s : List Char} (hs : ∀ c ∈ s, isPySpace c = true) :
    ∀ (l tok : List Char), tokensAux tok (l ++ s) = tokensAux tok l
  | [], tok => by
    rw [List.nil_append, tokensAux_all_space hs tok]
    rfl
  | c :: l', tok => by
    cases hc : isWordChar c
    · rw [List.cons_append, tokensAux_cons_nonword hc, tokensAux_cons_nonword hc,
          tokensAux_append_space hs l' []]
    · rw [List.cons_append, tokensAux_cons_word hc, tokensAux_cons_word hc,
          tokensAux_append_space hs l' (c :: tok)]

theorem tokensAux_dropWhile_space :
    ∀ l : List Char, tokensAux [] (l.dropWhile isPySpace) = tokensAux [] l
  | [] => rfl
  | c :: cs => by
    cases hc : isPySpace c
    · rw [List.dropWhile_cons_of_neg (by simp [hc])]
    · rw [List.dropWhile_cons_of_pos (by simp [hc]),
          tokensAux_dropWhile_space cs,
          tokensAux_cons_nonword (space_not_word hc)]
      rfl

/-- `str.strip` does not change the maximal word runs. -/
theorem tokensAux_pyStrip (l : List Char) : tokensAux [] (pyStrip l) = tokensAux [] l := by
  have hA : l.dropWhile isPySpace =
      pyStrip l ++ ((l.dropWhile isPySpace).reverse.takeWhile isPySpace).reverse := by
    unfold pyStrip
    rw [← List.reverse_append, List.takeWhile_append_dropWhile, List.reverse_reverse]
  have htr : ∀ c ∈ ((l.dropWhile isPySpace).reverse.takeWhile isPySpace).reverse,
      isPySpace c = true := by
    intro c hc
    exact List.mem_takeWhile_imp (List.mem_reverse.mp hc)
  calc tokensAux [] (pyStrip l)
      = tokensAux []
          (pyStrip l ++ ((l.dropWhile isPySpace).reverse.takeWhile isPySpace).reverse) :=
        (tokensAux_append_space htr (pyStrip l) []).symm
    _ = tokensAux [] (l.dropWhile isPySpace) := by rw [← hA]
    _ = tokensAux [] l := tokensAux_dropWhile_space l

/-! ## `removeStop` lemmas -/

theorem emitTok_nil : emitTok [] = [] := by
  unfold emitTok
  split <;> rfl

theorem remStopAux_cons_word {c : Char} (h : isWordChar c = true) (tok cs : List Char) :
    remStopAux tok (c :: cs) = remStopAux (c :: tok) cs := by
  rw [remStopAux, if_pos h]

theorem remStopAux_cons_nonword {c : Char} (h : isWordChar c = false) (tok cs : List Char) :
    remStopAux tok (c :: cs) = emitTok tok.reverse ++ c :: remStopAux [] cs := by
  rw [remStopAux, if_neg (by simp [h])]

/-- If no maximal word run (including the pending one) is a stop word, the
stop-word pass is the identity. -/
theorem remStopAux_id :
    ∀ (l tok : List Char), (∀ t ∈ tokensAux tok l, isStopword t = false) →
      remStopAux tok l = tok.reverse ++ l
  | [], tok, h => by
    by_cases htok : tok = []
    · subst htok; simp [remStopAux, emitTok_nil]
    · have hmem : tok.reverse ∈ tokensAux tok [] := by
        rw [tokensAux, if_neg htok]
        exact List.mem_singleton.mpr rfl
      have hst := h _ hmem
      rw [remStopAux, emitTok, if_neg (by simp [hst])]
      simp
  | c :: cs, tok, h => by
    cases hc : isWordChar c
    · have hemit : emitTok tok.reverse = tok.reverse := by
        by_cases htok : tok = []
        · subst htok; simp [emitTok_nil]
        · have hmem : tok.reverse ∈ tokensAux tok (c :: cs) := by
            rw [tokensAux_cons_nonword hc, if_neg htok]
            exact List.mem_append_left _ (List.mem_singleton.mpr rfl)
          have hst := h _ hmem
          rw [emitTok, if_neg (by simp [hst])]
      have hrest : ∀ t ∈ tokensAux [] cs, isStopword t = false := by
        intro t ht
        apply h
        rw [tokensAux_cons_nonword hc]
        exact List.mem_append_right _ ht
      rw [remStopAux_cons_nonword hc, hemit, remStopAux_id cs [] hrest]
      simp
    · have hrest : ∀ t ∈ tokensAux (c :: tok) cs, isStopword t = false := by
        intro t ht
        apply h
        rw [tokensAux_cons_word hc]
        exact ht
      rw [remStopAux_cons_word hc, remStopAux_id cs (c :: tok) hrest,
          List.reverse_cons, List.append_assoc, List.singleton_append]

/-- Every maximal word run of the output of the stop-word pass is a
non-stop-word (deleting whole runs never merges the remaining runs). -/
theorem remStopAux_no_stop :
    ∀ (l tok : List Char), (∀ c ∈ tok, isWordChar c = true) →
      ∀ t ∈ tokensAux [] (remStopAux tok l), isStopword t = false
  | [], tok, htok, t, ht => by
    rw [remStopAux] at ht
    rcases hstop : isStopword tok.reverse with _ | _
    · rw [emitTok, if_neg (by simp [hstop])] at ht
      rcases htok2 : tok with _ | ⟨x, xs⟩
      · subst htok2; simp [tokensAux] at ht
      · have hword : ∀ c ∈ tok.reverse, isWordChar c = true := fun c hc =>
          htok c (List.mem_reverse.mp hc)
        have : tokensAux [] tok.reverse = tokensAux (tok.reverse.reverse ++ []) [] := by
          have := tokensAux_append_word tok.reverse hword [] []
          rwa [List.append_nil] at this
        rw [this, List.reverse_reverse, List.append_nil] at ht
        rw [tokensAux, if_neg (by simp [htok2])] at ht
        rw [List.mem_singleton.mp ht]
        exact hstop
    · rw [emitTok, if_pos hstop] at ht
      simp [tokensAux] at ht
  | c :: cs, tok, htok, t, ht => by
    cases hc : isWordChar c
    · rw [remStopAux_cons_nonword hc] at ht
      have hword : ∀ x ∈ emitTok tok.reverse, isWordChar x = true := by
        intro x hx
        rw [emitTok] at hx
        split at hx
        · simp at hx
        · exact htok x (List.mem_reverse.mp hx)
      have hsplit : tokensAux [] (emitTok tok.reverse ++ c :: remStopAux [] cs) =
          tokensAux (emitTok tok.reverse).reverse (c :: remStopAux [] cs) := by
        have := tokensAux_append_word (emitTok tok.reverse) hword [] (c :: remStopAux [] cs)
        rwa [List.append_nil] at this
      rw [hsplit, tokensAux_cons_nonword hc] at ht
      rcases List.mem_append.mp ht with hl | hr
      · split at hl
        · simp at hl
        · rw [List.mem_singleton.mp hl, List.reverse_reverse]
          rw [emitTok]
          split
          · decide
          · next hst => simpa using hst
      · exact remStopAux_no_stop cs [] (by simp) t hr
    · rw [remStopAux_cons_word hc] at ht
      refine remStopAux_no_stop cs (c :: tok) ?_ t ht
      intro x hx
      rcases List.mem_cons.mp hx with rfl | hx'
      · exact hc
      · exact htok x hx'

theorem mem_emitTok {x : Char} {tok : List Char} (h : x ∈ emitTok tok) : x ∈ tok := by
  rw [emitTok] at h
  split at h
  · simp at h
  · exact h

theorem mem_remStopAux :
    ∀ (l tok : List Char) (x : Char), x ∈ remStopAux tok l → x ∈ tok ∨ x ∈ l
  | [], tok, x, h => by
    rw [remStopAux] at h
    exact Or.inl (List.mem_reverse.mp (mem_emitTok h))
  | c :: cs, tok, x, h => by
    cases hc : isWordChar c
    · rw [remStopAux_cons_nonword hc] at h
      rcases List.mem_append.mp h with hl | hr
      · exact Or.inl (List.mem_reverse.mp (mem_emitTok hl))
      · rcases List.mem_cons.mp hr with rfl | hr'
        · exact Or.inr (List.mem_cons_self x cs)
        · rcases mem_remStopAux cs [] x hr' with h0 | h0
          · simp at h0
          · exact Or.inr (List.mem_cons_of_mem c h0)
    · rw [remStopAux_cons_word hc] at h
      rcases mem_remStopAux cs (c :: tok) x h with h0 | h0
      · rcases List.mem_cons.mp h0 with rfl | h1
        · exact Or.inr (List.mem_cons_self x cs)
        · exact Or.inl h1
      · exact Or.inr (List.mem_cons_of_mem c h0)

/-! ## Characters of a normalised string -/

theorem map_eq_self_of {f : Char → Char} :
    ∀ {l : List Char}, (∀ c ∈ l, f c = c) → l.map f = l
  | [], _ => rfl
  | c :: cs, h => by
    rw [List.map_cons, h c (List.mem_cons_self c cs),
        map_eq_self_of (fun x hx => h x (List.mem_cons_of_mem c hx))]

theorem pyToLower_space : pyToLower ' ' = ' ' := rfl

theorem mem_pyStrip {x : Char} {l : List Char} (h : x ∈ pyStrip l) : x ∈ l := by
  unfold pyStrip at h
  have h1 := List.mem_reverse.mp h
  have h2 := List.IsSuffix.mem h1 (List.dropWhile_suffix isPySpace)
  have h3 := List.mem_reverse.mp h2
  exact List.IsSuffix.mem h3 (List.dropWhile_suffix isPySpace)

theorem good_of_mem_pipeline {x : List Char} :
    ∀ c ∈ ((squeeze (x.map spacify)).filter keepWs).map pyToLower, GoodChar c := by
  intro c hc
  rcases List.mem_map.mp hc with ⟨e, he, rfl⟩
  have hkeep : keepWs e = true := List.of_mem_filter he
  have hsq : e ∈ squeeze (x.map spacify) := List.mem_of_mem_filter he
  rcases List.mem_map.mp (mem_squeeze _ _ hsq) with ⟨f, _, rfl⟩
  refine ⟨?_, pyToLower_idem _, ?_⟩
  · rw [keepWs_pyToLower]; exact hkeep
  · intro hsp
    rw [isPySpace_pyToLower] at hsp
    rw [spacify_space_eq hsp, pyToLower_space]

/-- The decomposition behind `pyStrip`: dropping leading whitespace yields the
stripped string followed by its trailing whitespace. -/
theorem pyStrip_decomp (l : List Char) :
    l.dropWhile isPySpace =
      pyStrip l ++ ((l.dropWhile isPySpace).reverse.takeWhile isPySpace).reverse := by
  unfold pyStrip
  rw [← List.reverse_append, List.takeWhile_append_dropWhile, List.reverse_reverse]

theorem head?_dropWhile_not {p : Char → Bool} :
    ∀ {l : List Char} {h : Char}, (l.dropWhile p).head? = some h → p h = false
  | [], h, hh => by simp at hh
  | c :: cs, h, hh => by
    cases hp : p c
    · rw [List.dropWhile_cons_of_neg (by simp [hp])] at hh
      cases hh
      exact hp
    · rw [List.dropWhile_cons_of_pos (by simp [hp])] at hh
      exact head?_dropWhile_not hh

theorem head?_pyStrip_not {l : List Char} {h : Char} (hh : (pyStrip l).head? = some h) :
    isPySpace h = false := by
  rcases hs : pyStrip l with _ | ⟨e, es⟩
  · rw [hs] at hh; cases hh
  · rw [hs] at hh
    have he : h = e := by cases hh; rfl
    subst he
    have hA := pyStrip_decomp l
    rw [hs] at hA
    have : (l.dropWhile isPySpace).head? = some h := by
      rw [hA]; rfl
    exact head?_dropWhile_not this

theorem getLast?_pyStrip_not {l : List Char} {h : Char} (hh : (pyStrip l).getLast? = some h) :
    isPySpace h = false := by
  unfold pyStrip at hh
  rw [List.getLast?_reverse] at hh
  exact head?_dropWhile_not hh

theorem dropWhile_eq_self_of {p : Char → Bool} {l : List Char}
    (h : ∀ c, l.head? = some c → p c = false) : l.dropWhile p = l := by
  cases l with
  | nil => rfl
  | cons c cs => exact List.dropWhile_cons_of_neg (by simp [h c rfl])

theorem pyStrip_eq_self_of {l : List Char}
    (h1 : ∀ c, l.head? = some c → isPySpace c = false)
    (h2 : ∀ c, l.getLast? = some c → isPySpace c = false) : pyStrip l = l := by
  unfold pyStrip
  rw [dropWhile_eq_self_of h1]
  rw [dropWhile_eq_self_of (fun c hc => h2 c (by rwa [List.head?_reverse] at hc))]
  exact List.reverse_reverse l

/-! ## Idempotence analysis of the normalizer (claim C2) -/

theorem normalizeText_nil : normalizeText [] = [] := rfl

/-- A second normalisation pass only collapses the residual multi-space runs
that stop-word and punctuation deletion left behind. -/
theorem normalizeText_twice (x : List Char) :
    normalizeText (normalizeText x) = squeeze (normalizeText x) := by
  by_cases hx : x.isEmpty
  · have hx0 : x = [] := by cases x <;> simp_all
    subst hx0
    rfl
  · have hyx : normalizeText x =
        pyStrip (removeStop (((squeeze (x.map spacify)).filter keepWs).map pyToLower)) := by
      rw [normalizeText, if_neg (by simp_all)]
    by_cases hnil : normalizeText x = []
    · rw [hnil]
      rfl
    · have hgood : ∀ c ∈ normalizeText x, GoodChar c := by
        intro c hc
        rw [hyx] at hc
        rcases mem_remStopAux _ [] c (mem_pyStrip hc) with h2 | h2
        · simp at h2
        · exact good_of_mem_pipeline c h2
      have h1 : (normalizeText x).map spacify = normalizeText x :=
        map_eq_self_of (fun c hc => by
          rcases hgood c hc with ⟨_, _, hsp⟩
          unfold spacify
          split
          · next hs => rw [hsp hs]
          · rfl)
      have h2 : (squeeze (normalizeText x)).filter keepWs = squeeze (normalizeText x) :=
        List.filter_eq_self.mpr (fun a ha => (hgood a (mem_squeeze _ a ha)).1)
      have h3 : (squeeze (normalizeText x)).map pyToLower = squeeze (normalizeText x) :=
        map_eq_self_of (fun a ha => (hgood a (mem_squeeze _ a ha)).2.1)
      have hnostop : ∀ t ∈ tokensAux [] (squeeze (normalizeText x)), isStopword t = false := by
        intro t ht
        rw [tokensAux_squeeze (normalizeText x) [], hyx, tokensAux_pyStrip] at ht
        exact remStopAux_no_stop _ [] (by simp) t ht
      have h4 : removeStop (squeeze (normalizeText x)) = squeeze (normalizeText x) := by
        have := remStopAux_id (squeeze (normalizeText x)) [] hnostop
        simpa [removeStop] using this
      have h5 : pyStrip (squeeze (normalizeText x)) = squeeze (normalizeText x) := by
        apply pyStrip_eq_self_of
        · intro c hc
          rw [head?_squeeze, hyx] at hc
          exact head?_pyStrip_not hc
        · intro c hc
          rw [getLast?_squeeze, hyx] at hc
          exact getLast?_pyStrip_not hc
      rw [normalizeText, if_neg (by simp [hnil]), h1, h2, h3, h4, h5]

/-! ## Bounds on the similarity ratio (claim C5) -/

theorem lcpLen_le_left : ∀ (a b : List Char), lcpLen a b ≤ a.length
  | [], _ => by simp [lcpLen]
  | _ :: _, [] => by simp [lcpLen]
  | x :: xs, y :: ys => by
    rw [lcpLen]
    split
    · simpa using lcpLen_le_left xs ys
    · simp

theorem lcpLen_le_right : ∀ (a b : List Char), lcpLen a b ≤ b.length
  | [], _ => by simp [lcpLen]
  | _ :: _, [] => by simp [lcpLen]
  | x :: xs, y :: ys => by
    rw [lcpLen]
    split
    · simpa using lcpLen_le_right xs ys
    · simp

theorem bestJ_inv {a b : List Char} {i : Nat} (hi : i < a.length) :
    ∀ (js : List Nat) (best : Nat × Nat × Nat), (∀ j ∈ js, j < b.length) →
      FlmInv a b best → FlmInv a b (bestJ a b i js best)
  | [], best, _, hbest => hbest
  | j :: js, best, hjs, hbest => by
    rw [bestJ]
    refine bestJ_inv hi js _ (fun j' hj' => hjs j' (List.mem_cons_of_mem j hj')) ?_
    split
    · have hj : j < b.length := hjs j (List.mem_cons_self j js)
      have h1 : lcpLen (a.drop i) (b.drop j) ≤ a.length - i := by
        have := lcpLen_le_left (a.drop i) (b.drop j)
        simpa using this
      have h2 : lcpLen (a.drop i) (b.drop j) ≤ b.length - j := by
        have := lcpLen_le_right (a.drop i) (b.drop j)
        simpa using this
      constructor
      · show i + lcpLen (a.drop i) (b.drop j) ≤ a.length
        omega
      · show j + lcpLen (a.drop i) (b.drop j) ≤ b.length
        omega
    · exact hbest

theorem bestI_inv {a b : List Char} :
    ∀ (is : List Nat) (best : Nat × Nat × Nat), (∀ i ∈ is, i < a.length) →
      FlmInv a b best → FlmInv a b (bestI a b is best)
  | [], best, _, hbest => hbest
  | i :: is, best, his, hbest => by
    rw [bestI]
    refine bestI_inv is _ (fun i' hi' => his i' (List.mem_cons_of_mem i hi')) ?_
    exact bestJ_inv (his i (List.mem_cons_self i is)) _ _ (fun j hj => List.mem_range.mp hj) hbest

theorem flm_inv (a b : List Char) : FlmInv a b (flm a b) := by
  unfold flm
  exact bestI_inv _ _ (fun i hi => List.mem_range.mp hi) ⟨by simp, by simp⟩

theorem matchTotalF_le :
    ∀ (fuel : Nat) (a b : List Char),
      matchTotalF fuel a b ≤ a.length ∧ matchTotalF fuel a b ≤ b.length
  | 0, a, b => by simp [matchTotalF]
  | fuel + 1, a, b => by
    rw [matchTotalF]
    have hinv := flm_inv a b
    rcases hinv with ⟨ha, hb⟩
    split
    · simp
    · have h1 := matchTotalF_le fuel (a.take (flm a b).1) (b.take (flm a b).2.1)
      have h2 := matchTotalF_le fuel (a.drop ((flm a b).1 + (flm a b).2.2))
        (b.drop ((flm a b).2.1 + (flm a b).2.2))
      rcases h1 with ⟨h1a, h1b⟩
      rcases h2 with ⟨h2a, h2b⟩
      rw [List.length_take] at h1a h1b
      rw [List.length_drop] at h2a h2b
      constructor <;> omega

theorem matchTotal_le_left (a b : List Char) : matchTotal a b ≤ a.length :=
  (matchTotalF_le _ a b).1

theorem matchTotal_le_right (a b : List Char) : matchTotal a b ≤ b.length :=
  (matchTotalF_le _ a b).2

theorem calculate_similarity_nonneg (a b : List Char) : 0 ≤ calculate_similarity a b := by
  unfold calculate_similarity
  split
  · norm_num
  · apply div_nonneg <;> positivity

theorem calculate_similarity_le_one (a b : List Char) : calculate_similarity a b ≤ 1 := by
  unfold calculate_similarity
  split
  · norm_num
  · next hT =>
    have hpos : (0 : ℚ) < (a.length : ℚ) + (b.length : ℚ) := by
      have : 0 < a.length + b.length := Nat.pos_of_ne_zero hT
      exact_mod_cast this
    rw [div_le_one hpos]
    have h1 := matchTotal_le_left a b
    have h2 := matchTotal_le_right a b
    push_cast
    have : (matchTotal a b : ℚ) ≤ a.length := by exact_mod_cast h1
    have : (matchTotal a b : ℚ) ≤ b.length := by exact_mod_cast h2
    linarith

/-- The denominator-cleared loop test agrees with the rational test of the
source (`similarity >= 0.8`). -/
theorem simAtLeast_iff (cn o : List Char) :
    simAtLeast cn o = true ↔ similarity_threshold ≤ calculate_similarity cn o := by
  unfold simAtLeast calculate_similarity similarity_threshold
  by_cases hT : cn.length + o.length = 0
  · rw [if_pos hT, if_pos hT]
    norm_num
  · rw [if_neg hT, if_neg hT]
    rw [decide_eq_true_eq]
    have hpos : (0 : ℚ) < (cn.length : ℚ) + (o.length : ℚ) := by
      have : 0 < cn.length + o.length := Nat.pos_of_ne_zero hT
      exact_mod_cast this
    rw [div_le_div_iff (by norm_num) hpos]
    constructor
    · intro h
      have h' : (4 * (cn.length + o.length) : ℚ) ≤ (10 * matchTotal cn o : ℚ) := by
        exact_mod_cast h
      push_cast at h'
      linarith
    · intro h
      have h' : (4 * (cn.length + o.length) : ℚ) ≤ (10 * matchTotal cn o : ℚ) := by
        push_cast
        linarith
      exact_mod_cast h'

/-! ## Duplicate-detector lemmas -/

theorem dupScan_reason {fz cn : List Char} {now : Int} :
    ∀ {w : List Article} {r : String}, dupScan fz cn now w = some r →
      r = "fuzzy_duplicate" ∨ r = "similar_content"
  | [], r, h => by simp [dupScan] at h
  | a :: rest, r, h => by
    rw [dupScan] at h
    split at h
    · split at h
      · exact Or.inl (by cases h; rfl)
      · split at h
        · exact Or.inr (by cases h; rfl)
        · exact dupScan_reason h
    · exact dupScan_reason h

theorem dupScan_cons_old {fz cn : List Char} {now : Int} {a : Article}
    (rest : List Article) (h : agePasses now a = false) :
    dupScan fz cn now (a :: rest) = dupScan fz cn now rest := by
  rw [dupScan, if_neg (by simp [h])]

/-- The scan is a first-match-wins walk of the window: items before the first
in-lookback hit are irrelevant, and at the deciding item the fuzzy check takes
priority over the similarity check. -/
theorem dupScan_first_hit {fz cn : List Char} {now : Int} :
    ∀ (w1 : List Article) (b : Article) (w2 : List Article),
      (∀ x ∈ w1, agePasses now x = true →
        windowFuzzy x ≠ fz ∧
          calculate_similarity cn (windowNorm x) < similarity_threshold) →
      agePasses now b = true →
      dupScan fz cn now (w1 ++ b :: w2) =
        if windowFuzzy b = fz then some "fuzzy_duplicate"
        else if similarity_threshold ≤ calculate_similarity cn (windowNorm b) then
          some "similar_content"
        else dupScan fz cn now w2
  | [], b, w2, _, hb => by
    rw [List.nil_append, dupScan, if_pos hb]
    by_cases hf : windowFuzzy b = fz
    · rw [if_pos hf, if_pos hf]
    · rw [if_neg hf, if_neg hf]
      by_cases hs : simAtLeast cn (windowNorm b) = true
      · rw [if_pos hs, if_pos ((simAtLeast_iff _ _).mp hs)]
      · rw [if_neg hs, if_neg (fun hr => hs ((simAtLeast_iff _ _).mpr hr))]
  | x :: w1, b, w2, hw, hb => by
    rw [List.cons_append]
    cases hax : agePasses now x
    · rw [dupScan_cons_old _ hax]
      exact dupScan_first_hit w1 b w2
        (fun y hy => hw y (List.mem_cons_of_mem x hy)) hb
    · rcases hw x (List.mem_cons_self x w1) hax with ⟨hf, hs⟩
      rw [dupScan, if_pos hax, if_neg hf,
          if_neg (fun h => absurd ((simAtLeast_iff _ _).mp h) (not_le.mpr hs))]
      exact dupScan_first_hit w1 b w2
        (fun y hy => hw y (List.mem_cons_of_mem x hy)) hb

/-- The age guard in arithmetic form: an article is excluded from the fuzzy
and similarity checks exactly when it carries a creation time at least
8 days (in floored whole days, more than 7) before `now`. -/
theorem agePasses_false_iff (now : Int) (a : Article) :
    agePasses now a = false ↔ ∃ ts, a.created_at = some ts ∧ 8 * 86400 ≤ now - ts := by
  unfold agePasses
  cases hca : a.created_at with
  | none => simp
  | some ts =>
    have hfd : (now - ts).fdiv 86400 = (now - ts) / 86400 :=
      Int.fdiv_eq_ediv (now - ts) (by norm_num)
    simp only [Bool.not_eq_true', decide_eq_false_iff_not, not_not, Bool.not_eq_false',
      decide_eq_true_eq, hfd]
    constructor
    · intro h
      exact ⟨ts, rfl, by omega⟩
    · rintro ⟨ts', hts', h⟩
      cases hts'
      omega

theorem is_duplicate_result_state (t c : List Char) (existing : List Article) (now : Int)
    (s : ReducerState) :
    (is_duplicate t c existing now s).2 =
      if (is_duplicate t c existing now s).1.1 then s
      else { s with recent_hashes := insertSig (create_content_signature t c) s.recent_hashes } := by
  unfold is_duplicate
  by_cases hmem : create_content_signature t c ∈ s.recent_hashes
  · rw [if_pos hmem]
    rfl
  · rw [if_neg hmem]
    rcases hscan : dupScan (create_fuzzy_signature t c)
        (normalizeText (t ++ ' ' :: c.take 500)) now existing with _ | r
    · rfl
    · rfl

theorem is_duplicate_mem_exact {t c : List Char} {s : ReducerState}
    (existing : List Article) (now : Int)
    (h : create_content_signature t c ∈ s.recent_hashes) :
    is_duplicate t c existing now s = ((true, some "exact_duplicate"), s) := by
  unfold is_duplicate
  rw [if_pos h]

theorem is_duplicate_not_mem {t c : List Char} {s : ReducerState}
    (existing : List Article) (now : Int)
    (h : create_content_signature t c ∉ s.recent_hashes) :
    (is_duplicate t c existing now s).1 =
      match dupScan (create_fuzzy_signature t c)
          (normalizeText (t ++ ' ' :: c.take 500)) now existing with
      | some r => (true, some r)
      | none => (false, none) := by
  unfold is_duplicate
  rw [if_neg h]
  rcases dupScan (create_fuzzy_signature t c)
      (normalizeText (t ++ ' ' :: c.take 500)) now existing with _ | r
  · rfl
  · rfl

/-- The verdict component of `is_duplicate` reads the cache only through the
membership test on the candidate's own exact signature. -/
theorem is_duplicate_verdict_congr (t c : List Char) (existing : List Article) (now : Int)
    (s1 s2 : ReducerState)
    (h : create_content_signature t c ∈ s1.recent_hashes ↔
         create_content_signature t c ∈ s2.recent_hashes) :
    (is_duplicate t c existing now s1).1 = (is_duplicate t c existing now s2).1 := by
  unfold is_duplicate
  by_cases hmem : create_content_signature t c ∈ s1.recent_hashes
  · rw [if_pos hmem, if_pos (h.mp hmem)]
  · rw [if_neg hmem, if_neg (fun hm => hmem (h.mpr hm))]
    rcases dupScan (create_fuzzy_signature t c)
        (normalizeText (t ++ ' ' :: c.take 500)) now existing with _ | r
    · rfl
    · rfl

theorem is_duplicate_shape (t c : List Char) (existing : List Article) (now : Int)
    (s : ReducerState) :
    (is_duplicate t c existing now s).1 = (true, some "exact_duplicate") ∨
    (is_duplicate t c existing now s).1 = (true, some "fuzzy_duplicate") ∨
    (is_duplicate t c existing now s).1 = (true, some "similar_content") ∨
    (is_duplicate t c existing now s).1 = (false, none) := by
  by_cases hmem : create_content_signature t c ∈ s.recent_hashes
  · rw [is_duplicate_mem_exact existing now hmem]
    exact Or.inl rfl
  · rw [is_duplicate_not_mem existing now hmem]
    rcases hscan : dupScan (create_fuzzy_signature t c)
        (normalizeText (t ++ ' ' :: c.take 500)) now existing with _ | r
    · exact Or.inr (Or.inr (Or.inr rfl))
    · rcases dupScan_reason hscan with rfl | rfl
      · exact Or.inr (Or.inl rfl)
      · exact Or.inr (Or.inr (Or.inl rfl))

theorem mem_insertSig (h : List Char) (l : List (List Char)) : h ∈ insertSig h l := by
  unfold insertSig
  split
  · assumption
  · exact List.mem_cons_self h l

/-! ## Decision-aggregator lemmas -/

theorem dupReasons_cases (t c : List Char) (ea : Option (List Article)) (now : Int)
    (s : ReducerState) :
    (dupReasons t c ea now s).1 = [] ∨
    (dupReasons t c ea now s).1 = ["duplicate_exact_duplicate"] ∨
    (dupReasons t c ea now s).1 = ["duplicate_fuzzy_duplicate"] ∨
    (dupReasons t c ea now s).1 = ["duplicate_similar_content"] := by
  rcases ea with _ | arts
  · exact Or.inl rfl
  · simp only [dupReasons]
    by_cases hempty : arts.isEmpty = true
    · rw [if_pos hempty]
      exact Or.inl rfl
    · rw [if_neg hempty]
      rcases is_duplicate_shape t c arts now s with h | h | h | h <;>
        simp only [h, optReason]
      · exact Or.inr (Or.inl rfl)
      · exact Or.inr (Or.inr (Or.inl rfl))
      · exact Or.inr (Or.inr (Or.inr rfl))
      · exact Or.inl rfl

theorem dupReasons_skip {t c : List Char} {ea : Option (List Article)} {now : Int}
    {s : ReducerState} (h : ea = none ∨ ea = some []) :
    dupReasons t c ea now s = ([], s) := by
  rcases h with rfl | rfl
  · rfl
  · rfl

theorem dupReasons_congr (t c : List Char) (ea : Option (List Article)) (now : Int)
    (s1 s2 : ReducerState)
    (h : create_content_signature t c ∈ s1.recent_hashes ↔
         create_content_signature t c ∈ s2.recent_hashes) :
    (dupReasons t c ea now s1).1 = (dupReasons t c ea now s2).1 := by
  rcases ea with _ | arts
  · rfl
  · simp only [dupReasons]
    by_cases hempty : arts.isEmpty = true
    · rw [if_pos hempty, if_pos hempty]
    · rw [if_neg hempty, if_neg hempty]
      have hv := is_duplicate_verdict_congr t c arts now s1 s2 h
      simp only [hv]

theorem spa_verdict_congr (t c u : List Char) (ea : Option (List Article)) (now : Int)
    (s1 s2 : ReducerState)
    (h : create_content_signature t c ∈ s1.recent_hashes ↔
         create_content_signature t c ∈ s2.recent_hashes) :
    (should_process_article t c u ea now s1).1 = (should_process_article t c u ea now s2).1 := by
  simp only [should_process_article, dupReasons_congr t c ea now s1 s2 h]

theorem spa_accept {t c u : List Char} {arts : List Article} {now : Int} {s : ReducerState}
    (hlv : is_low_value_content t c = false)
    (hw : is_wire_service_content t c = false)
    (hpr : is_pr_content t c = false)
    (hu : is_filtered_url u = false)
    (hne : arts.isEmpty = false)
    (hdup : (is_duplicate t c arts now s).1 = (false, none)) :
    should_process_article t c u (some arts) now s =
      ((true, []), (is_duplicate t c arts now s).2) := by
  simp only [should_process_article, dupReasons, optReason, hlv, hw, hpr, hu, hne, hdup]
  simp

theorem spa_reject_exact {t c u : List Char} {arts : List Article} {now : Int} {s : ReducerState}
    (hlv : is_low_value_content t c = false)
    (hw : is_wire_service_content t c = false)
    (hpr : is_pr_content t c = false)
    (hu : is_filtered_url u = false)
    (hne : arts.isEmpty = false)
    (hmem : create_content_signature t c ∈ s.recent_hashes) :
    should_process_article t c u (some arts) now s =
      ((false, ["duplicate_exact_duplicate"]), s) := by
  have hdup := is_duplicate_mem_exact arts now hmem
  simp only [should_process_article, dupReasons, optReason, hlv, hw, hpr, hu, hne, hdup]
  simp

/-! ## Batch-pipeline invariants -/

theorem batchLoop_inv (recent : List Article) (now : Int) :
    ∀ (arts : List ArticleData) (s : ReducerState) (st : BatchStats),
      (batchLoop recent now arts s st).1.2.total_input = st.total_input ∧
      (batchLoop recent now arts s st).1.2.processed =
        st.processed + (batchLoop recent now arts s st).1.1.length ∧
      (batchLoop recent now arts s st).1.1.length ≤ arts.length ∧
      (batchLoop recent now arts s st).1.2.total_filtered =
        st.total_filtered + (arts.length - (batchLoop recent now arts s st).1.1.length) ∧
      (batchLoop recent now arts s st).1.1.Sublist arts
  | [], s, st => by simp [batchLoop]
  | a :: rest, s, st => by
    rw [batchLoop]
    cases hr : (should_process_article a.title a.content a.url (some recent) now s).1.1
    · rw [if_neg (by simp [hr])]
      have ih := batchLoop_inv recent now rest
        (should_process_article a.title a.content a.url (some recent) now s).2
        (bumpReject st (should_process_article a.title a.content a.url (some recent) now s).1.2)
      rcases ih with ⟨h1, h2, h3, h4, h5⟩
      have hbf : (bumpReject st
          (should_process_article a.title a.content a.url (some recent) now s).1.2).total_filtered
          = st.total_filtered + 1 := rfl
      have hbp : (bumpReject st
          (should_process_article a.title a.content a.url (some recent) now s).1.2).processed
          = st.processed := rfl
      have hbi : (bumpReject st
          (should_process_article a.title a.content a.url (some recent) now s).1.2).total_input
          = st.total_input := rfl
      refine ⟨?_, ?_, ?_, ?_, ?_⟩
      · rw [h1, hbi]
      · rw [h2, hbp]
      · simp only [List.length_cons]
        omega
      · rw [h4, hbf]
        simp only [List.length_cons]
        omega
      · exact h5.cons a
    · rw [if_pos (by simp [hr])]
      dsimp only
      have ih := batchLoop_inv recent now rest
        (should_process_article a.title a.content a.url (some recent) now s).2 (bumpAccept st)
      rcases ih with ⟨h1, h2, h3, h4, h5⟩
      have hbp : (bumpAccept st).processed = st.processed + 1 := rfl
      have hbf : (bumpAccept st).total_filtered = st.total_filtered := rfl
      have hbi : (bumpAccept st).total_input = st.total_input := rfl
      refine ⟨?_, ?_, ?_, ?_, ?_⟩
      · rw [h1, hbi]
      · simp only [List.length_cons]
        rw [h2, hbp]
        omega
      · simp only [List.length_cons]
        omega
      · simp only [List.length_cons]
        rw [h4, hbf]
        omega
      · exact h5.cons₂ a

/-! ## Claim theorems -/

/-- C1 (amended): the verdict of `should_process_article` is a pure function
of the inputs, the current time, and the cache's answer about the candidate's
own exact signature: two calls with the same `(title, content, url,
existing_articles, now)` and cache states that agree on membership of the
candidate's exact signature return the same verdict.  (The claim as frozen —
independence from earlier calls on the same engine — is refuted by
`c1_counterexample`: an earlier call inserts the exact signature into the
cache and flips the verdict.) -/
theorem c1_verdict_determined_by_inputs_and_cache (t c u : List Char)
    (ea : Option (List Article)) (now : Int) (s1 s2 : ReducerState)
    (h : create_content_signature t c ∈ s1.recent_hashes ↔
         create_content_signature t c ∈ s2.recent_hashes) :
    (should_process_article t c u ea now s1).1 = (should_process_article t c u ea now s2).1 :=
  spa_verdict_congr t c u ea now s1 s2 h

/-- C2 (amended): normalisation is not idempotent — deleting a stop word or
punctuation after whitespace collapsing can leave a double space — but a
second pass differs from the first only by collapsing those residual space
runs: `normalize (normalize x) = collapse-spaces (normalize x)`.  The claim as
frozen is refuted by `c2_counterexample`. -/
theorem c2_normalize_second_pass_only_collapses_spaces (x : List Char) :
    normalizeText (normalizeText x) = squeeze (normalizeText x) :=
  normalizeText_twice x

/-- C3 (amended): after the exact-signature cache miss, the detector walks the
window in list order and the first in-lookback article that fuzzy-matches or
clears the similarity threshold decides the verdict; the fuzzy check takes
priority over the similarity check only within the same article, so an earlier
article's similarity hit is reported as `similar_content` even when a later
article matches the fuzzy signature (the frozen claim's global
fuzzy-before-similarity order is refuted by `c3_counterexample`). -/
theorem c3_first_hit_wins_with_per_item_fuzzy_priority (t c : List Char) (now : Int)
    (s : ReducerState) (w1 : List Article) (b : Article) (w2 : List Article)
    (hmem : create_content_signature t c ∉ s.recent_hashes)
    (hskip : ∀ x ∈ w1, agePasses now x = true →
      windowFuzzy x ≠ create_fuzzy_signature t c ∧
        calculate_similarity (normalizeText (t ++ ' ' :: c.take 500)) (windowNorm x) <
          similarity_threshold)
    (hb : agePasses now b = true)
    (hhit : windowFuzzy b = create_fuzzy_signature t c ∨
      similarity_threshold ≤
        calculate_similarity (normalizeText (t ++ ' ' :: c.take 500)) (windowNorm b)) :
    (is_duplicate t c (w1 ++ b :: w2) now s).1 =
      (true, some (if windowFuzzy b = create_fuzzy_signature t c then "fuzzy_duplicate"
                   else "similar_content")) := by
  rw [is_duplicate_not_mem _ now hmem, dupScan_first_hit w1 b w2 hskip hb]
  by_cases hf : windowFuzzy b = create_fuzzy_signature t c
  · rw [if_pos hf, if_pos hf]
  · rcases hhit with hf' | hs
    · exact absurd hf' hf
    · rw [if_neg hf, if_pos hs, if_neg hf]

/-- C4 (amended): a window article is excluded from the fuzzy and similarity
checks exactly when it has a creation time and its age is at least 8 days
(`(now - created_at).days > 7`, with `days` the floored day count), and an
excluded article contributes nothing to the scan.  In particular an article
without a creation time, or aged between 7 and 8 days, does participate; the
frozen claim's strict 7-day cut-off is refuted by `c4_counterexample`. -/
theorem c4_age_guard_floor_days (fz cn : List Char) (now : Int) (a : Article)
    (rest : List Article) :
    (agePasses now a = false ↔ ∃ ts, a.created_at = some ts ∧ 8 * 86400 ≤ now - ts) ∧
    (agePasses now a = false → dupScan fz cn now (a :: rest) = dupScan fz cn now rest) :=
  ⟨agePasses_false_iff now a, fun h => dupScan_cons_old rest h⟩

/-- C5 (amended): the similarity ratio is total and always lies in `[0, 1]`,
but on the pair of two empty strings it is `1` (difflib's
`_calculate_ratio` convention), not `0`; consequently two items whose
normalised comparison texts are both empty are flagged `similar_content`
when no earlier check fires (see `c5_counterexample`). -/
theorem c5_similarity_total_range :
    (∀ a b : List Char,
      0 ≤ calculate_similarity a b ∧ calculate_similarity a b ≤ 1) ∧
    calculate_similarity [] [] = 1 :=
  ⟨fun a b => ⟨calculate_similarity_nonneg a b, calculate_similarity_le_one a b⟩, rfl⟩

/-- C6: the verdict of `should_process_article` accepts exactly when the
reason list is empty, and the reasons always appear in the fixed source
order low-value, wire-service, promotional, duplicate, url (stated as strict
monotonicity of the reporting priority along the list). -/
theorem c6_accept_iff_no_reasons_and_fixed_order (t c u : List Char)
    (ea : Option (List Article)) (now : Int) (s : ReducerState) :
    ((should_process_article t c u ea now s).1.1 = true ↔
      (should_process_article t c u ea now s).1.2 = []) ∧
    List.Chain' (fun x y => reasonPrio x < reasonPrio y)
      (should_process_article t c u ea now s).1.2 := by
  simp only [should_process_article]
  rcases dupReasons_cases t c ea now s with hd | hd | hd | hd <;> rw [hd] <;>
    cases is_low_value_content t c <;>
    cases is_wire_service_content t c <;>
    cases is_pr_content t c <;>
    cases is_filtered_url u <;>
    simp [optReason, reasonPrio]

/-- C7: for every batch, `total_input` equals accepted plus `total_filtered`,
`total_filtered` equals the input length minus the accepted length,
`processed` counts exactly the accepted items, and the accepted sequence is a
subsequence of the input (order preserved, nothing reordered). -/
theorem c7_batch_stats_invariants (articles : List ArticleData) (recent : List Article)
    (now : Int) (s0 : ReducerState) :
    (filter_articles_batch articles recent now s0).1.2.total_input =
      (filter_articles_batch articles recent now s0).1.1.length +
        (filter_articles_batch articles recent now s0).1.2.total_filtered ∧
    (filter_articles_batch articles recent now s0).1.2.total_filtered =
      articles.length - (filter_articles_batch articles recent now s0).1.1.length ∧
    (filter_articles_batch articles recent now s0).1.2.processed =
      (filter_articles_batch articles recent now s0).1.1.length ∧
    (filter_articles_batch articles recent now s0).1.1.Sublist articles := by
  have h := batchLoop_inv recent now articles (cleanup_cache now s0) (initStats articles.length)
  rcases h with ⟨h1, h2, h3, h4, h5⟩
  have hti : (initStats articles.length).total_input = articles.length := rfl
  have htf : (initStats articles.length).total_filtered = 0 := rfl
  have htp : (initStats articles.length).processed = 0 := rfl
  rw [hti] at h1
  rw [htf] at h4
  rw [htp] at h2
  unfold filter_articles_batch
  exact ⟨by omega, by omega, by omega, h5⟩

/-- C9: `is_duplicate` mutates the recent-content cache exactly when it
reports "not a duplicate", in which case it inserts precisely the candidate's
exact signature; on any duplicate verdict (exact, fuzzy or similar) the state
is returned unchanged. -/
theorem c9_cache_mutation_iff_not_duplicate (t c : List Char) (existing : List Article)
    (now : Int) (s : ReducerState) :
    (is_duplicate t c existing now s).2 =
      if (is_duplicate t c existing now s).1.1 then s
      else { s with recent_hashes := insertSig (create_content_signature t c) s.recent_hashes } :=
  is_duplicate_result_state t c existing now s

/-- C10: when `existing_articles` is `None` or the empty list, duplicate
detection is skipped entirely: the reducer state is returned untouched (the
cache is not written), the verdict does not depend on the cache state at all
(the cache is not read), and no reason of the `duplicate_*` family can appear
in the verdict. -/
theorem c10_skip_dedup_without_window (t c u : List Char) (ea : Option (List Article))
    (now : Int) (s s2 : ReducerState) (h : ea = none ∨ ea = some []) :
    (should_process_article t c u ea now s).2 = s ∧
    (should_process_article t c u ea now s).1 = (should_process_article t c u ea now s2).1 ∧
    ∀ r ∈ (should_process_article t c u ea now s).1.2,
      List.isPrefixOf ("duplicate_").data r.data = false := by
  have h1 : dupReasons t c ea now s = ([], s) := dupReasons_skip h
  have h2 : dupReasons t c ea now s2 = ([], s2) := dupReasons_skip h
  refine ⟨?_, ?_, ?_⟩
  · simp only [should_process_article, h1]
  · simp only [should_process_article, h1, h2]
  · simp only [should_process_article, h1]
    cases is_low_value_content t c <;>
      cases is_wire_service_content t c <;>
      cases is_pr_content t c <;>
      cases is_filtered_url u <;>
      decide

/-- C8 (amended): two identical items in one batch produce "first accepted,
second rejected with `DuplicateExact`" only when the recent window supplied to
the batch is non-empty (and the item triggers no other filter and is not a
duplicate of the window itself): `if existing_articles:` treats an empty
window like `None` and skips duplicate detection altogether, so with an empty
window both copies are accepted (see `c8_counterexample`). -/
theorem c8_same_batch_exact_duplicate_nonempty_window (x : ArticleData)
    (recent : List Article) (now : Int) (s0 : ReducerState)
    (hne : recent.isEmpty = false)
    (hlv : is_low_value_content x.title x.content = false)
    (hw : is_wire_service_content x.title x.content = false)
    (hpr : is_pr_content x.title x.content = false)
    (hu : is_filtered_url x.url = false)
    (hdup : (is_duplicate x.title x.content recent now (cleanup_cache now s0)).1 =
      (false, none)) :
    (filter_articles_batch [x, x] recent now s0).1.1 = [x] ∧
    (filter_articles_batch [x, x] recent now s0).1.2.processed = 1 ∧
    (filter_articles_batch [x, x] recent now s0).1.2.total_filtered = 1 ∧
    (filter_articles_batch [x, x] recent now s0).1.2.counts "duplicate_exact_duplicate" = 1 := by
  have hspa1 : should_process_article x.title x.content x.url (some recent) now
      (cleanup_cache now s0) =
      ((true, []), (is_duplicate x.title x.content recent now (cleanup_cache now s0)).2) :=
    spa_accept hlv hw hpr hu hne hdup
  have hflag : (is_duplicate x.title x.content recent now (cleanup_cache now s0)).1.1 = false := by
    rw [hdup]
  have hstate := is_duplicate_result_state x.title x.content recent now (cleanup_cache now s0)
  rw [hflag, if_neg (by simp)] at hstate
  have hmem2 : create_content_signature x.title x.content ∈
      (is_duplicate x.title x.content recent now (cleanup_cache now s0)).2.recent_hashes := by
    rw [hstate]
    exact mem_insertSig _ _
  have hspa2 : should_process_article x.title x.content x.url (some recent) now
      (is_duplicate x.title x.content recent now (cleanup_cache now s0)).2 =
      ((false, ["duplicate_exact_duplicate"]),
        (is_duplicate x.title x.content recent now (cleanup_cache now s0)).2) :=
    spa_reject_exact hlv hw hpr hu hne hmem2
  unfold filter_articles_batch
  rw [batchLoop, hspa1]
  rw [if_pos (by rfl)]
  dsimp only
  rw [batchLoop, hspa2]
  rw [if_neg (by simp)]
  rw [batchLoop]
  refine ⟨rfl, rfl, rfl, ?_⟩
  show (bumpReject (bumpAccept (initStats 2)) ["duplicate_exact_duplicate"]).counts
      "duplicate_exact_duplicate" = 1
  simp [bumpReject, bumpAccept, initStats, bumpCount]

/-! ## Counterexamples and witnesses -/

/-- C1 counterexample: the frozen claim — same `(title, content, url,
existing_articles)` always yields the same verdict regardless of earlier calls
on the same engine — is false: calling `should_process_article` twice with
identical arguments on the threaded state gives two different verdicts,
because the first call inserts the exact signature into the cache and the
second call then reports `duplicate_exact_duplicate`. -/
theorem c1_counterexample :
    (should_process_article ("aaaa").data [] [] (some [c1Article]) 0 ⟨[], 0⟩).1 ≠
    (should_process_article ("aaaa").data [] [] (some [c1Article]) 0
      (should_process_article ("aaaa").data [] [] (some [c1Article]) 0 ⟨[], 0⟩).2).1 := by
  decide

/-- C2 counterexample: normalisation is not idempotent: `"b the c"`
normalises to `"b  c"` (double space left where the stop word was deleted),
which a second pass changes to `"b c"`. -/
theorem c2_counterexample :
    normalizeText (normalizeText ("b the c").data) ≠ normalizeText ("b the c").data := by
  decide

/-- C3 counterexample: the window contains an article whose fuzzy signature
equals the candidate's, yet the reported reason is `similar_content`, because
an earlier window article clears the similarity threshold first — refuting
"if any window item matches the candidate's fuzzy signature, the reported
reason is DuplicateFuzzy and never DuplicateSimilar". -/
theorem c3_counterexample :
    (is_duplicate ceTitle [] [ceSimilarArticle, ceFuzzyArticle] 0 ⟨[], 0⟩).1 =
      (true, some "similar_content") ∧
    windowFuzzy ceFuzzyArticle = create_fuzzy_signature ceTitle [] ∧
    agePasses 0 ceFuzzyArticle = true := by
  decide

/-- C4 counterexample: a window article whose age exceeds 7 days (7 days and
1 hour: `1000000 - 391600 = 608400 > 604800` seconds) still participates in
the scan and causes a `fuzzy_duplicate` rejection, refuting "a window item
older than 7 days can never cause a DuplicateFuzzy or DuplicateSimilar
rejection". -/
theorem c4_counterexample :
    (7 * 86400 : Int) < 1000000 - 391600 ∧
    (is_duplicate ceTitle [] [⟨ceTitle, some [], some 391600⟩] 1000000 ⟨[], 0⟩).1 =
      (true, some "fuzzy_duplicate") := by
  decide

/-- C5 counterexample: the ratio of two empty strings is `1`, not the claimed
`0`, and consequently a candidate and a window article whose normalised
comparison texts are both empty (title `"with"` is a pure stop word) ARE
flagged `similar_content`. -/
theorem c5_counterexample :
    calculate_similarity [] [] = 1 ∧
    calculate_similarity [] [] ≠ 0 ∧
    (is_duplicate ("with").data [] [⟨[], some [], none⟩] 0 ⟨[], 0⟩).1 =
      (true, some "similar_content") := by
  refine ⟨rfl, ?_, by decide⟩
  rw [show calculate_similarity [] [] = 1 from rfl]
  norm_num

/-- C8 counterexample: with an empty recent window, duplicate detection is
skipped (`if existing_articles:`), so two identical items that trigger no
other filter are BOTH accepted — refuting "the second is rejected with
DuplicateExact, for every recent window supplied to the batch". -/
theorem c8_counterexample :
    is_low_value_content wtTitle wtContent = false ∧
    is_wire_service_content wtTitle wtContent = false ∧
    is_pr_content wtTitle wtContent = false ∧
    is_filtered_url wtUrl = false ∧
    (filter_articles_batch [wtItem, wtItem] [] 0 ⟨[], 0⟩).1.1 = [wtItem, wtItem] := by
  decide

/-- C1 witness: two cache states agreeing on the candidate's signature (here:
neither contains it) produce the same verdict. -/
theorem c1_witness :
    (should_process_article ("aaaa").data [] [] (some [c1Article]) 0 ⟨[], 0⟩).1 =
    (should_process_article ("aaaa").data [] [] (some [c1Article]) 0 ⟨[("zz").data], 7⟩).1 :=
  c1_verdict_determined_by_inputs_and_cache ("aaaa").data [] [] (some [c1Article]) 0
    ⟨[], 0⟩ ⟨[("zz").data], 7⟩ (by decide)

/-- C3 witness: a window whose first article is no hit and whose second
fuzzy-matches the candidate yields `fuzzy_duplicate` by the first-hit rule. -/
theorem c3_witness :
    (is_duplicate ceTitle [] ([wtWindowArticle] ++ ceFuzzyArticle :: []) 0 ⟨[], 0⟩).1 =
      (true, some (if windowFuzzy ceFuzzyArticle = create_fuzzy_signature ceTitle []
        then "fuzzy_duplicate" else "similar_content")) := by
  apply c3_first_hit_wins_with_per_item_fuzzy_priority ceTitle [] 0 ⟨[], 0⟩
      [wtWindowArticle] ceFuzzyArticle []
  · decide
  · intro x hx _
    have hxx : x = wtWindowArticle := by
      rcases List.mem_singleton.mp hx with rfl
      rfl
    subst hxx
    refine ⟨by decide, ?_⟩
    have hsim : simAtLeast (normalizeText (ceTitle ++ ' ' :: List.take 500 []))
        (windowNorm wtWindowArticle) = false := by decide
    by_contra hge
    push_neg at hge
    have := (simAtLeast_iff _ _).mpr hge
    rw [hsim] at this
    cases this
  · decide
  · exact Or.inl (by decide)

/-- C4 witness: an article created 800000 seconds before `now` (more than 8
days) is excluded by the age guard, and the scan ignores it. -/
theorem c4_witness :
    (agePasses 1000000 (⟨ceTitle, some [], some 200000⟩ : Article) = false ↔
      ∃ ts, (⟨ceTitle, some [], some 200000⟩ : Article).created_at = some ts ∧
        8 * 86400 ≤ (1000000 : Int) - ts) ∧
    (agePasses 1000000 (⟨ceTitle, some [], some 200000⟩ : Article) = false →
      dupScan [] [] 1000000 [⟨ceTitle, some [], some 200000⟩] = dupScan [] [] 1000000 []) :=
  c4_age_guard_floor_days [] [] 1000000 ⟨ceTitle, some [], some 200000⟩ []

/-- C8 witness: with a non-empty window of unrelated content, the first copy
of the item is accepted and the second is rejected as an exact duplicate. -/
theorem c8_witness :
    (filter_articles_batch [wtItem, wtItem] [wtWindowArticle] 0 ⟨[], 0⟩).1.1 = [wtItem] ∧
    (filter_articles_batch [wtItem, wtItem] [wtWindowArticle] 0 ⟨[], 0⟩).1.2.processed = 1 ∧
    (filter_articles_batch [wtItem, wtItem] [wtWindowArticle] 0 ⟨[], 0⟩).1.2.total_filtered = 1 ∧
    (filter_articles_batch [wtItem, wtItem] [wtWindowArticle] 0 ⟨[], 0⟩).1.2.counts
      "duplicate_exact_duplicate" = 1 :=
  c8_same_batch_exact_duplicate_nonempty_window wtItem [wtWindowArticle] 0 ⟨[], 0⟩
    (by decide) (by decide) (by decide) (by decide) (by decide) (by decide)

/-- C10 witness: with `existing_articles = None` the state is untouched, the
verdict ignores the cache, and no duplicate reason appears. -/
theorem c10_witness :
    (should_process_article ("t").data ("c").data ("u").data none 5 ⟨[("h").data], 3⟩).2 =
      (⟨[("h").data], 3⟩ : ReducerState) ∧
    (should_process_article ("t").data ("c").data ("u").data none 5 ⟨[("h").data], 3⟩).1 =
      (should_process_article ("t").data ("c").data ("u").data none 5 ⟨[], 9⟩).1 ∧
    ∀ r ∈ (should_process_article ("t").data ("c").data ("u").data none 5 ⟨[("h").data], 3⟩).1.2,
      List.isPrefixOf ("duplicate_").data r.data = false :=
  c10_skip_dedup_without_window ("t").data ("c").data ("u").data none 5 ⟨[("h").data], 3⟩
    ⟨[], 9⟩ (Or.inl rfl)
